import Mathlib

/-!
Verification development for the `mminions` orchestrator.

The Python sources under `src/orchestrator/` are shallowly embedded as pure
Lean functions.  External effects (subprocess execution, the filesystem, the
tmux multiplexer, wall-clock time) are modelled as explicit parameters:

* a `CommandRunner` becomes a function from the sequential call index and the
  rendered command string to a `RunResult`;
* the repository snapshot used by the triage ranker becomes a map from file
  path to the list of its lines;
* the supervision loop's tmux side effects become an explicit action trace;
* time is rational-valued (Python uses float epoch seconds; no claim here
  depends on float rounding).

String primitives are re-implemented over `List Char` with structural
recursion so that every definition reduces inside the kernel.  Python's
`str.lower` is modelled by ASCII lowercasing (`Char.toLower`), which agrees
with CPython on all inputs appearing in this development.
-/

namespace MM

/-! ## String primitives (models of the Python `str` operations used) -/

/-- Lowercasing of a string, character by character (model of `str.lower`). -/
def strLower (s : String) : String := ⟨s.data.map Char.toLower⟩

/-- Python `needle in hay` substring containment, as a decidable proposition
on the underlying character lists. -/
def strContains (hay needle : String) : Bool :=
  decide (needle.data <:+: hay.data)

/-- Replace every occurrence of a (non-empty) literal pattern, scanning left
to right without overlap; fuel-driven so the recursion is structural.
Model of Python `str.replace` for non-empty patterns. -/
def replaceFuel (pat rep : List Char) : Nat → List Char → List Char
  | _, [] => []
  | 0, hay => hay
  | fuel + 1, c :: rest =>
      if pat ≠ [] ∧ pat.isPrefixOf (c :: rest) then
        rep ++ replaceFuel pat rep fuel ((c :: rest).drop pat.length)
      else
        c :: replaceFuel pat rep fuel rest

/-- Model of Python `str.replace` (the patterns used by the sources are the
non-empty literals `{repro_file}` and `{python}`). -/
def strReplace (s pat rep : String) : String :=
  ⟨replaceFuel pat.data rep.data s.data.length s.data⟩

/-- Auxiliary splitter for `pySplitlines`: emit the accumulated line at each
newline; a trailing newline produces no final empty line. -/
def splitlinesAux : List Char → List Char → List (List Char)
  | [], acc => [acc.reverse]
  | c :: rest, acc =>
      if c = '\n' then
        acc.reverse :: (match rest with
          | [] => []
          | _ :: _ => splitlinesAux rest [])
      else
        splitlinesAux rest (c :: acc)

/-- Model of Python `str.splitlines` restricted to `\n` separators (the only
line separator produced by the orchestrator's scripts). -/
def pySplitlines (s : String) : List String :=
  match s.data with
  | [] => []
  | l => (splitlinesAux l []).map fun cs => ⟨cs⟩

/-- Python whitespace `str.strip`. -/
def pyStrip (s : String) : String :=
  ⟨((s.data.dropWhile Char.isWhitespace).reverse.dropWhile Char.isWhitespace).reverse⟩

/-- Split on whitespace runs, dropping empty pieces (Python `str.split()`
with no argument). -/
def pySplitWs (s : String) : List String :=
  ((s.data.splitOnP Char.isWhitespace).map fun cs => (⟨cs⟩ : String)).filter
    fun w => w ≠ ""

/-! ## Banker's rounding (model of Python `round(x, 5)`)

CPython rounds half to even.  `score_candidate` and `rank_hypotheses` round
their scores to 5 decimal places; we model the arithmetic exactly over `ℚ`. -/

/-- Round a rational to the nearest integer, ties to even (`Rat.floor` is
used rather than `Int.floor` so that the definition evaluates by kernel
reduction; the two agree, see `ratFloor_eq_intFloor`). -/
def bankersRound (q : ℚ) : ℤ :=
  if q - q.floor < 1/2 then q.floor
  else if 1/2 < q - q.floor then q.floor + 1
  else if q.floor % 2 = 0 then q.floor else q.floor + 1

/-- Model of Python `round(q, 5)`. -/
def pyRound5 (q : ℚ) : ℚ := (bankersRound (q * 100000) : ℚ) / 100000

/-! ## Data model (`src/orchestrator/types.py`) -/

/-- `FailureSignal` from `types.py`.  `none` and `some ""` both model Python
falsy values (`None` and `""`). -/
structure FailureSignal where
  exception_type : Option String := none
  message_substring : Option String := none
  exit_code : Option Int := none
  raw_pattern : Option String := none
deriving DecidableEq, Repr

/-- `IssueSpec` from `types.py`. -/
structure IssueSpec where
  issue_url : String
  repo_slug : String
  issue_number : Int
  title : String
  body : String
  labels : List String := []
  expected_failure_signals : List FailureSignal := []
  constraints : List String := []
  target_paths : List String := []
  status : String := "ok"
  needs_human_reason : Option String := none
deriving DecidableEq, Repr

/-- `ValidationResult` from `types.py` (the source's field name `matches` is
a reserved word in Lean, hence the guillemets). -/
structure ValidationResult where
  total_runs : Nat
  «matches» : Nat
  matched_signature : String
  passed : Bool
deriving DecidableEq, Repr

/-- `ReproCandidate` from `types.py`. -/
structure ReproCandidate where
  candidate_id : String
  worker_id : String
  script : String
  setup_commands : List String
  oracle_command : String
  claimed_failure_signature : String
  file_extension : String := "py"
  validation : Option ValidationResult := none
  score : Option ℚ := none
deriving DecidableEq, Repr

/-- `TriageEvidence` from `types.py` (`line` is a Python `int`, so it may be
non-positive). -/
structure TriageEvidence where
  file : String
  line : Int
  snippet : String
deriving DecidableEq, Repr

/-- `TriageHypothesis` from `types.py`. -/
structure TriageHypothesis where
  hypothesis_id : String
  mechanism : String
  evidence : List TriageEvidence
  confidence : ℚ
  disconfirming_checks : List String
  worker_id : String
  score : Option ℚ := none
deriving DecidableEq, Repr

/-! ## Command execution model (`src/orchestrator/command.py`)

`CommandRunner.run_shell` is an external effect.  We model the environment as
a function from the sequential shell-call index and the rendered command text
to the observed `RunResult`; the orchestrator consumes call indices in
program order. -/

/-- Captured result of one shell invocation. -/
structure RunResult where
  returncode : Int
  stdout : String
  stderr : String
deriving DecidableEq, Repr

/-- The environment's response to the `k`-th `run_shell` call with the given
rendered command. -/
def ShellEnv : Type := Nat → String → RunResult

/-! ## Command rendering (`repro.py`: `_render_python_command`) -/

/-- Characters that Python's `shlex.quote` considers safe: ASCII letters,
digits, underscore, `@ % + = : ,` and the dot, slash and dash. -/
def shlexSafeChar (c : Char) : Bool :=
  (c.isAlpha && c.toNat < 128) || c.isDigit ||
    c ∈ ['_', '@', '%', '+', '=', ':', ',', '.', '/', '-']

/-- Model of Python `shlex.quote`. -/
def shlexQuote (s : String) : String :=
  if s = "" then "''"
  else if s.data.all shlexSafeChar then s
  else "'" ++ strReplace s "'" "'\"'\"'" ++ "'"

/-- The character class `[\\w/.-]` of the raw-string regex in
`_render_python_command`: because the source doubles the backslash inside a
raw string, the class holds the literal characters backslash, `w`, `/`, `.`
and `-`. -/
def renderClassChar (c : Char) : Bool :=
  c ∈ ['\\', 'w', '/', '.', '-']

/-- Left-to-right, non-overlapping substitution of the bare word `python`
(the `re.sub` in `_render_python_command`): a match requires the preceding
original character (if any) and the following character (if any) to fall
outside `renderClassChar`. -/
def subPythonFuel (rep : List Char) : Nat → Option Char → List Char → List Char
  | _, _, [] => []
  | 0, _, hay => hay
  | fuel + 1, prev, c :: rest =>
      if ("python".data.isPrefixOf (c :: rest))
          && (match prev with | none => true | some p => ! renderClassChar p)
          && (match (c :: rest).drop 6 with
              | [] => true
              | d :: _ => ! renderClassChar d) then
        rep ++ subPythonFuel rep fuel (some 'n') ((c :: rest).drop 6)
      else
        c :: subPythonFuel rep fuel (some c) rest

/-- `_render_python_command` from `repro.py`. -/
def renderPythonCommand (command : String) (python_executable : Option String) :
    String :=
  match python_executable with
  | none => command
  | some "" => command
  | some exe =>
      let python_token := shlexQuote exe
      let rendered := strReplace command "{python}" python_token
      ⟨subPythonFuel python_token.data rendered.data.length none rendered.data⟩

/-- Rendering applied to a setup or oracle command inside
`validate_candidate`: substitute `{repro_file}` then the python tokens. -/
def renderCommand (cmd scriptPath : String) (pyExe : Option String) : String :=
  renderPythonCommand (strReplace cmd "{repro_file}" scriptPath) pyExe

/-! ## Signature matching and validation (`repro.py`) -/

/-- Python truthiness of an optional string (`None` and `""` are falsy). -/
def optTruthy : Option String → Bool
  | none => false
  | some s => s ≠ ""

/-- `_signature_matches` from `repro.py`. -/
def signatureMatches (output claimed_signature : String)
    (expected_signals : List FailureSignal) : Bool :=
  let lowered_output := strLower output
  if strContains lowered_output (strLower claimed_signature) then true
  else expected_signals.any fun signal =>
    (optTruthy signal.exception_type
      && strContains lowered_output (strLower (signal.exception_type.getD "")))
    || (optTruthy signal.message_substring
      && strContains lowered_output (strLower (signal.message_substring.getD "")))

/-- The setup-command loop of `validate_candidate`: run each rendered setup
command at consecutive call indices; return the next free call index, or
`none` at the first non-zero exit. -/
def runSetupsFrom (env : ShellEnv) (scriptPath : String) (pyExe : Option String) :
    Nat → List String → Option Nat
  | idx, [] => some idx
  | idx, cmd :: rest =>
      let rendered := renderCommand cmd scriptPath pyExe
      if (env idx rendered).returncode ≠ 0 then none
      else runSetupsFrom env scriptPath pyExe (idx + 1) rest

/-- The oracle loop of `validate_candidate`: run the rendered oracle command
`runs` times from call index `idx` and count signature matches. -/
def countOracleMatches (env : ShellEnv) (candidate : ReproCandidate)
    (spec : IssueSpec) (scriptPath : String) (pyExe : Option String) :
    Nat → Nat → Nat
  | _, 0 => 0
  | idx, runs + 1 =>
      let oracle_cmd := renderCommand candidate.oracle_command scriptPath pyExe
      let run_result := env idx oracle_cmd
      let output := run_result.stdout ++ "\n" ++ run_result.stderr
      (if signatureMatches output candidate.claimed_failure_signature
          spec.expected_failure_signals then 1 else 0)
        + countOracleMatches env candidate spec scriptPath pyExe (idx + 1) runs

/-- `validate_candidate` from `repro.py`.  The first component is the
returned `ValidationResult`; the second instruments the number of oracle
invocations performed (each is one `run_shell` call in the source). -/
def validate_candidate (env : ShellEnv) (candidate : ReproCandidate)
    (spec : IssueSpec) (scriptPath : String) (runs min_matches : Nat)
    (pyExe : Option String) : ValidationResult × Nat :=
  match runSetupsFrom env scriptPath pyExe 0 candidate.setup_commands with
  | none =>
      (⟨runs, 0, candidate.claimed_failure_signature, false⟩, 0)
  | some idx =>
      let «matches» := countOracleMatches env candidate spec scriptPath pyExe idx runs
      let required_matches := max 1 (min min_matches runs)
      (⟨runs, «matches», candidate.claimed_failure_signature,
        decide (required_matches ≤ «matches»)⟩, runs)

/-! ## Scoring and selection (`repro.py`: `score_candidate`,
`choose_best_candidate`)

Python float literals `0.6`, `0.25`, `0.15` are modelled by the exact
rationals they denote in the source text; every claim proved below is about
order relations that are insensitive to this choice. -/

/-- The lowered expected-signal terms collected by `score_candidate`. -/
def expectedTerms (spec : IssueSpec) : List String :=
  spec.expected_failure_signals.foldr
    (fun signal acc =>
      (if optTruthy signal.exception_type then
        [strLower (signal.exception_type.getD "")] else [])
      ++ (if optTruthy signal.message_substring then
        [strLower (signal.message_substring.getD "")] else [])
      ++ acc) []

/-- Number of lines of a candidate script as Python computes it
(`len(script.splitlines())`). -/
def scriptLineCount (c : ReproCandidate) : Nat := (pySplitlines c.script).length

/-- `score_candidate` from `repro.py`. -/
def score_candidate (candidate : ReproCandidate) (spec : IssueSpec) : ℚ :=
  match candidate.validation with
  | none => 0
  | some validation =>
      let determinism : ℚ :=
        (validation.«matches» : ℚ) / (max validation.total_runs 1 : ℚ)
      let lower_claim := strLower candidate.claimed_failure_signature
      let fidelity : ℚ :=
        if (expectedTerms spec).any (fun term => strContains lower_claim term)
        then 1 else 0
      let line_count : Nat := max 1 (pySplitlines candidate.script).length
      let size_score : ℚ := max 0 (1 - (min line_count 200 : ℚ) / 200)
      pyRound5 ((6/10) * determinism + (25/100) * fidelity + (15/100) * size_score)

/-- The ascending sort key of `choose_best_candidate`:
`(-score, line count, candidate_id)` under the lexicographic tuple order of
Python (string comparison is lexicographic on code points, as in Lean). -/
def candKey (c : ReproCandidate) : ℚ ×ₗ (ℕ ×ₗ String) :=
  toLex (-(c.score.getD 0), toLex (scriptLineCount c, c.candidate_id))

/-- Executable strict comparison of selection keys; agrees with the
lexicographic order on `ℚ ×ₗ (ℕ ×ₗ String)` (`candLt_iff`). -/
def candLt (a b : ℚ ×ₗ (ℕ ×ₗ String)) : Bool :=
  decide ((ofLex a).1 < (ofLex b).1)
    || (decide ((ofLex a).1 = (ofLex b).1)
        && (decide ((ofLex (ofLex a).2).1 < (ofLex (ofLex b).2).1)
            || (decide ((ofLex (ofLex a).2).1 = (ofLex (ofLex b).2).1)
                && decide ((ofLex (ofLex a).2).2 < (ofLex (ofLex b).2).2))))

/-- Whether a candidate is viable for selection (`c.validation and
c.validation.passed`; a present `ValidationResult` is always truthy). -/
def candPassed (c : ReproCandidate) : Bool :=
  match c.validation with
  | some v => v.passed
  | none => false

/-- `choose_best_candidate` from `repro.py`.  `sorted(viable, key)[0]` under
a stable ascending sort is the first element attaining the minimal key, which
this left fold with strict-less replacement computes. -/
def choose_best_candidate (candidates : List ReproCandidate) (spec : IssueSpec) :
    Option ReproCandidate :=
  let scored := candidates.map fun c => {c with score := some (score_candidate c spec)}
  let viable := scored.filter candPassed
  match viable with
  | [] => none
  | v :: vs =>
      some (vs.foldl (fun best c => if candLt (candKey c) (candKey best) then c else best) v)

/-! ## Manager (`src/orchestrator/manager.py`) -/

/-- The rationale string built by `Manager.run` when no candidate passes the
acceptance gate (f-string at `manager.py:500`). -/
def noReproRationale (repro_min_matches repro_validation_runs : Nat) : String :=
  "no deterministic reproducer met the acceptance gate "
    ++ "(>=" ++ toString repro_min_matches ++ "/"
    ++ toString repro_validation_runs ++ " runs)"

/-- `RunDecision` from `types.py` (the fields relevant to the claims). -/
structure RunDecision where
  status : String
  selected_repro_candidate_id : Option String
  rationale : String
  top_hypotheses : List String
  next_fix_targets : List String
  diagnostics : List String
deriving DecidableEq, Repr

/-- The decision `Manager.run` emits when `choose_best_candidate` returns
`None` after the repro waves. -/
def noReproDecision (repro_min_matches repro_validation_runs : Nat)
    (diagnostics : List String) : RunDecision :=
  { status := "needs-human"
    selected_repro_candidate_id := none
    rationale := noReproRationale repro_min_matches repro_validation_runs
    top_hypotheses := []
    next_fix_targets := []
    diagnostics := diagnostics }

/-- `Manager._worker_count_sequence`.  `sorted(set(l))` returns the unique
duplicate-free ascending enumeration of `l`'s elements; any comparison sort
of `l.dedup` computes it. -/
def worker_count_sequence (min_workers max_workers : Nat) : List Nat :=
  let seq := [min_workers]
  let seq := seq ++ (if min_workers < 4 ∧ 4 ≤ max_workers then [4] else [])
  let seq := seq ++ (if min_workers < 6 ∧ 6 ≤ max_workers then [6] else [])
  let seq := if max_workers ∈ seq then seq else seq ++ [max_workers]
  seq.dedup.insertionSort (· ≤ ·)

/-! ## Configuration (`src/orchestrator/config.py`)

Only the numeric fields of `load_manager_defaults` are modelled; the path
and model-name fields read the filesystem and are independent of the numeric
clamping the claims are about.  The payload is the already-parsed
`[manager]` table. -/

/-- A parsed TOML value as `_as_int` can receive it (`other` covers values
on which Python `int(...)` raises `TypeError`, e.g. lists or dates). -/
inductive TomlVal where
  | int (z : Int)
  | str (s : String)
  | bool (b : Bool)
  | other
deriving DecidableEq, Repr

/-- Decimal digit parsing for `pyIntOfString`. -/
def digitsToNat : List Char → Option Nat
  | [] => none
  | ds =>
      if ds.all Char.isDigit then
        some (ds.foldl (fun a c => a * 10 + (c.toNat - 48)) 0)
      else none

/-- Model of Python `int(s)` on a string: strip, optional sign, decimal
digits (digit-group underscores are not modelled; no claim depends on them). -/
def pyIntOfString (s : String) : Option Int :=
  match (pyStrip s).data with
  | '+' :: ds => (digitsToNat ds).map Int.ofNat
  | '-' :: ds => (digitsToNat ds).map fun n => -(n : Int)
  | ds => (digitsToNat ds).map Int.ofNat

/-- Model of Python `int(value)` on a parsed TOML value. -/
def pyInt : TomlVal → Option Int
  | .int z => some z
  | .bool b => some (if b then 1 else 0)
  | .str s => pyIntOfString s
  | .other => none

/-- `_as_int` from `config.py`: `int(payload.get(key, default))` with the
default returned on `TypeError`/`ValueError` (and `int(default) = default`
when the key is missing). -/
def asInt (payload : String → Option TomlVal) (key : String) (default : Int) : Int :=
  match payload key with
  | none => default
  | some v => (pyInt v).getD default

/-- The numeric fields of `ManagerDefaults`. -/
structure ManagerNums where
  min_workers : Int
  max_workers : Int
  timeout_sec : Int
  poll_interval_sec : Int
  repro_validation_runs : Int
  repro_min_matches : Int
deriving DecidableEq, Repr

/-- The numeric clamping performed by `load_manager_defaults`
(`config.py:84..89`). -/
def load_manager_defaults_nums (payload : String → Option TomlVal) : ManagerNums :=
  let min_workers := max 2 (asInt payload "min_workers" 2)
  let max_workers := min 6 (max 2 (asInt payload "max_workers" 6))
  let timeout_sec := max 60 (asInt payload "timeout_sec" 300)
  let poll_interval_sec := max 1 (asInt payload "poll_interval_sec" 5)
  let repro_validation_runs := max 1 (asInt payload "repro_validation_runs" 5)
  let repro_min_matches :=
    max 1 (min (asInt payload "repro_min_matches" 1) repro_validation_runs)
  ⟨min_workers, max_workers, timeout_sec, poll_interval_sec,
    repro_validation_runs, repro_min_matches⟩

/-! ## Supervision loop (`src/orchestrator/supervision_loop.py`)

tmux effects become an explicit action list per tick; the pane capture and
the clock arrive through `TickEnv`.  Epochs are rational (Python floats;
only order and subtraction are used). -/

/-- `WorkerWatchState` from `supervision_loop.py` (field defaults match the
dataclass defaults). -/
structure WorkerWatchState where
  session_name : String
  script_path : String
  stalled_once : Bool := false
  restarted_once : Bool := false
  last_digest : String := ""
  last_change_epoch : ℚ := 0
  failed : Bool := false
deriving DecidableEq, Repr

/-- One tmux side effect of a supervision tick. -/
inductive TmuxAction where
  | sendText (session text : String)
  | killSession (session : String)
  | createSession (session workdir command : String)
deriving DecidableEq, Repr

/-- The environment observed by one tick: whether the session exists, the
captured pane scrollback, and the current time. -/
structure TickEnv where
  session_exists : Bool
  pane : String
  now : ℚ
deriving DecidableEq, Repr

/-- Python `s[-n:]`: the last `n` characters. -/
def takeLastChars (s : String) (n : Nat) : String :=
  ⟨s.data.drop (s.data.length - n)⟩

/-- `SupervisionLoop.tick`.  Returns the updated watch state and the tmux
actions performed, in order. -/
def tick (stall_timeout_sec : ℚ) (workdir : String) (env : TickEnv)
    (state : WorkerWatchState) : WorkerWatchState × List TmuxAction :=
  if state.failed then (state, [])
  else if !env.session_exists then (state, [])
  else
    let digest := takeLastChars env.pane 500
    let now_epoch := env.now
    let state :=
      if state.last_change_epoch = 0 then
        {state with last_change_epoch := now_epoch}
      else state
    if digest ≠ state.last_digest then
      ({state with last_digest := digest, last_change_epoch := now_epoch}, [])
    else
      let stalled_for := now_epoch - state.last_change_epoch
      if stalled_for < stall_timeout_sec then (state, [])
      else if !state.stalled_once then
        ({state with stalled_once := true, last_change_epoch := now_epoch},
          [.sendText state.session_name
            "status update: report progress or current blocker"])
      else if !state.restarted_once then
        ({state with restarted_once := true, last_change_epoch := now_epoch},
          [.killSession state.session_name,
            .createSession state.session_name workdir state.script_path])
      else
        ({state with failed := true}, [.killSession state.session_name])

/-- Iterated supervision ticks; returns the final state and the per-tick
action traces in order. -/
def runTicks (stall_timeout_sec : ℚ) (workdir : String)
    (state : WorkerWatchState) :
    List TickEnv → WorkerWatchState × List (List TmuxAction)
  | [] => (state, [])
  | env :: rest =>
      let step := tick stall_timeout_sec workdir env state
      let next := runTicks stall_timeout_sec workdir step.1 rest
      (next.1, step.2 :: next.2)

/-- A fresh watch as `Manager._launch_workers` constructs it (only the two
identifying fields are set; the dataclass defaults fill the rest). -/
def initialWatch (session_name script_path : String) : WorkerWatchState :=
  { session_name := session_name, script_path := script_path }

/-- The stall nudge action. -/
def isNudge : TmuxAction → Bool
  | .sendText _ text => text = "status update: report progress or current blocker"
  | _ => false

/-- A session restart (the `create_session` of the kill-and-recreate step). -/
def isRestart : TmuxAction → Bool
  | .createSession _ _ _ => true
  | _ => false

/-- Scan of an action trace checking that no restart occurs before a nudge
has been seen. -/
def restartsAfterNudge : List TmuxAction → Bool → Bool
  | [], _ => true
  | a :: rest, seen =>
      if isRestart a && !seen then false
      else restartsAfterNudge rest (seen || isNudge a)

/-! ## Triage ranking (`src/orchestrator/triage.py`)

The repository snapshot is a map from file path (relative to the repo root)
to the file's lines; `none` models a missing path or a non-regular file. -/

/-- Repository snapshot used by `_evidence_valid`. -/
def RepoSnapshot : Type := String → Option (List String)

/-- `_evidence_valid` from `triage.py`. -/
def evidenceValid (repo : RepoSnapshot) (evidence : TriageEvidence) : Bool :=
  if evidence.file = "" || evidence.line ≤ 0 then false
  else
    match repo evidence.file with
    | none => false
    | some lines =>
        if (lines.length : Int) < evidence.line then false
        else
          let line_text := lines.getD (evidence.line.toNat - 1) ""
          if evidence.snippet ≠ "" && !strContains line_text evidence.snippet then
            false
          else true

/-- The normalized mechanism (`mechanism.strip().lower()`). -/
def normalizedMechanism (mechanism : String) : String :=
  strLower (pyStrip mechanism)

/-- `_agreement_weight` from `triage.py`. -/
def agreementWeight (mechanism : String)
    (all_hypotheses : List TriageHypothesis) : ℚ :=
  let normalized := normalizedMechanism mechanism
  if normalized = "" then 0
  else
    let matchCount :=
      (all_hypotheses.filter fun h => normalizedMechanism h.mechanism = normalized).length
    let max_matches := max 1 ((all_hypotheses.map (·.worker_id)).dedup.length)
    min 1 ((matchCount : ℚ) / (max_matches : ℚ))

/-- `_replay_consistency` from `triage.py`. -/
def replayConsistency (mechanism repro_text : String) : ℚ :=
  if pyStrip mechanism = "" || pyStrip repro_text = "" then 0
  else
    let words := (((pySplitWs mechanism).filter fun w => 4 ≤ w.length).map strLower).dedup
    if words = [] then 0
    else
      let repro_lower := strLower repro_text
      let overlaps := (words.filter fun w => strContains repro_lower w).length
      min 1 ((overlaps : ℚ) / (max 1 words.length : ℚ))

/-- The filtering step of `rank_hypotheses`: `none` when the hypothesis is
dropped, otherwise the hypothesis restricted to its valid evidence. -/
def viableHypothesis (repo : RepoSnapshot) (h : TriageHypothesis) :
    Option TriageHypothesis :=
  if h.mechanism = "" then none
  else if h.evidence = [] then none
  else
    let valid_evidence := h.evidence.filter (evidenceValid repo)
    if valid_evidence = [] then none
    else some {h with evidence := valid_evidence}

/-- The scoring step of `rank_hypotheses` for one filtered hypothesis. -/
def scoreHypothesis (filtered : List TriageHypothesis) (repro_text : String)
    (h : TriageHypothesis) : TriageHypothesis :=
  let evidence_score : ℚ := min 1 ((h.evidence.length : ℚ) / 3)
  let agreement_score := agreementWeight h.mechanism filtered
  let replay_score := replayConsistency h.mechanism repro_text
  let confidence_score := h.confidence
  let score := pyRound5 ((4/10) * evidence_score + (25/100) * agreement_score
    + (2/10) * replay_score + (15/100) * confidence_score)
  {h with score := some score}

/-- Strict lexicographic order on the triage sort key
`(-score, -confidence, hypothesis_id)`. -/
def hypKeyLt (a b : TriageHypothesis) : Bool :=
  decide (-(a.score.getD 0) < -(b.score.getD 0))
    || (decide (a.score.getD 0 = b.score.getD 0)
        && (decide (-a.confidence < -b.confidence)
            || (decide (a.confidence = b.confidence)
                && decide (a.hypothesis_id < b.hypothesis_id))))

/-- `rank_hypotheses` from `triage.py` (`list.sort` is modelled by a
comparison sort under the non-strict companion of `hypKeyLt`). -/
def rank_hypotheses (repo : RepoSnapshot) (hypotheses : List TriageHypothesis)
    (repro_text : String) : List TriageHypothesis :=
  let filtered := hypotheses.filterMap (viableHypothesis repo)
  let ranked := filtered.map (scoreHypothesis filtered repro_text)
  ranked.insertionSort fun a b => !hypKeyLt b a

/-! ## Artifact store (`src/orchestrator/artifacts.py`)

Paths are segment lists rooted at the runs root; the filesystem effect of
`initialize_contract` on a fresh run directory is the list of directories
passed to `mkdir(parents=True)` and the list of files written. -/

/-- `ArtifactPaths` from `artifacts.py` (note: the source dataclass has no
telemetry field). -/
structure ArtifactPathsM where
  run_dir : List String
  issue_json : List String
  sessions_json : List String
  repro_dir : List String
  repro_candidates_dir : List String
  minimal_repro_base : List String
  triage_dir : List String
  triage_hypotheses_json : List String
  decision_json : List String
  final_md : List String
  run_done_json : List String
  prompts_dir : List String
  scripts_dir : List String
deriving DecidableEq, Repr

/-- The path algebra of `ArtifactStore.__init__`. -/
def artifactPaths (runs_root run_id : String) : ArtifactPathsM :=
  let run_dir := [runs_root, run_id]
  let repro_dir := run_dir ++ ["repro"]
  let triage_dir := run_dir ++ ["triage"]
  { run_dir := run_dir
    issue_json := run_dir ++ ["issue.json"]
    sessions_json := run_dir ++ ["sessions.json"]
    repro_dir := repro_dir
    repro_candidates_dir := repro_dir ++ ["candidates"]
    minimal_repro_base := repro_dir ++ ["minimal_repro"]
    triage_dir := triage_dir
    triage_hypotheses_json := triage_dir ++ ["hypotheses.json"]
    decision_json := run_dir ++ ["decision.json"]
    final_md := run_dir ++ ["final.md"]
    run_done_json := run_dir ++ ["run_done.json"]
    prompts_dir := run_dir ++ ["prompts"]
    scripts_dir := run_dir ++ ["scripts"] }

/-- `ArtifactStore.minimal_repro_path`: `with_suffix` on the suffix-free base
appends `.<ext>` to the last segment. -/
def minimal_repro_path (p : ArtifactPathsM) (file_extension : String) :
    List String :=
  p.minimal_repro_base.dropLast
    ++ [(p.minimal_repro_base.getLastD "") ++ "." ++ file_extension]

/-- The filesystem effect of `initialize_contract` on a fresh run directory:
`mkdir(parents=True, exist_ok=True)` targets in call order, then the files
written (both `exists()`-guarded writes fire on a fresh directory). -/
structure ContractEffect where
  created_dirs : List (List String)
  written_files : List (List String)
deriving DecidableEq, Repr

/-- `ArtifactStore.initialize_contract`. -/
def initialize_contract (p : ArtifactPathsM) : ContractEffect :=
  { created_dirs := [p.repro_candidates_dir, p.triage_dir, p.prompts_dir, p.scripts_dir]
    written_files := [p.issue_json, p.sessions_json, p.triage_hypotheses_json,
      p.decision_json, minimal_repro_path p "txt", p.final_md] }

/-- A directory exists after the effect (starting from an empty filesystem)
iff it is an ancestor-or-self of some `mkdir(parents=True)` target. -/
def dirCreated (eff : ContractEffect) (d : List String) : Bool :=
  eff.created_dirs.any fun t => d.isPrefixOf t

/-- A file exists after the effect iff it was written. -/
def fileWritten (eff : ContractEffect) (f : List String) : Bool :=
  eff.written_files.contains f

/-! ## Delta debugging (`repro.py`: `_ddmin`) -/

/-- The trial list for chunk `i`: remove `current[start:stop]` where
`start = i*chunk_size` and `stop` is the list end for the last chunk. -/
def ddminTrial (current : List String) (n chunk_size i : Nat) : List String :=
  let start := i * chunk_size
  let stop := if i = n - 1 then current.length else (i + 1) * chunk_size
  current.take start ++ current.drop stop

/-- The inner `for i in range(n)` loop of `_ddmin`: the first non-empty
trial accepted by the oracle, if any. -/
def findReduction (oracle : List String → Bool) (current : List String)
    (n chunk_size : Nat) : Option (List String) :=
  (List.range n).findSome? fun i =>
    let trial := ddminTrial current n chunk_size i
    if trial ≠ [] ∧ oracle trial then some trial else none

/-- The outer `while` loop of `_ddmin`, by well-founded recursion on the
lexicographic measure (length of the current list, length minus `n`). -/
def ddminLoop (oracle : List String → Bool) (current : List String) (n : Nat) :
    List String :=
  if h2 : current.length < 2 then current
  else
    if hc : current.length / n = 0 then current
    else
      match hr : findReduction oracle current n (current.length / n) with
      | some trial => ddminLoop oracle trial (max 2 (n - 1))
      | none =>
          if hn : n ≥ current.length then current
          else ddminLoop oracle current (min current.length (n * 2))
termination_by (current.length, current.length - n)
decreasing_by
  · refine Prod.Lex.left _ _ (?_ : trial.length < current.length)
    obtain ⟨i, hi, hf⟩ := List.exists_of_findSome?_eq_some hr
    by_cases hcond : ddminTrial current n (current.length / n) i ≠ []
        ∧ oracle (ddminTrial current n (current.length / n) i) = true
    · rw [if_pos hcond] at hf
      obtain rfl : ddminTrial current n (current.length / n) i = trial :=
        Option.some.inj hf
      have hn : n ≠ 0 := by
        intro h0; subst h0; simp [Nat.div_zero] at hc
      have hin : i + 1 ≤ n := List.mem_range.mp hi
      set chunk := current.length / n with hchunk
      have hcpos : 1 ≤ chunk := Nat.one_le_iff_ne_zero.mpr hc
      have hmul : chunk * n ≤ current.length := by
        rw [hchunk]; exact Nat.div_mul_le_self current.length n
      have hstep : i * chunk + chunk ≤ n * chunk := by
        have h1 : (i + 1) * chunk ≤ n * chunk := Nat.mul_le_mul_right chunk hin
        calc i * chunk + chunk = (i + 1) * chunk := by ring
          _ ≤ n * chunk := h1
      have hfit : i * chunk + chunk ≤ current.length := by
        calc i * chunk + chunk ≤ n * chunk := hstep
          _ = chunk * n := Nat.mul_comm n chunk
          _ ≤ current.length := hmul
      simp only [ddminTrial, List.length_append, List.length_take, List.length_drop]
      by_cases hlast : i = n - 1
      · rw [if_pos hlast]
        omega
      · rw [if_neg hlast]
        have hsucc : (i + 1) * chunk = i * chunk + chunk := by ring
        omega
    · rw [if_neg hcond] at hf
      simp at hf
  · apply Prod.Lex.right
    have hn1 : 1 ≤ n := by
      by_contra h0
      have : n = 0 := by omega
      subst this
      simp [Nat.div_zero] at hc
    omega

/-- `_ddmin` from `repro.py`. -/
def _ddmin (oracle : List String → Bool) (lines : List String) : List String :=
  if lines = [] then lines else ddminLoop oracle lines 2

/-! ## Concrete sample inputs used by witnesses and counterexamples -/

/-- A small issue spec with one expected failure signal. -/
def sampleSpec : IssueSpec :=
  { issue_url := "https://example.test/issues/1"
    repo_slug := "owner/repo"
    issue_number := 1
    title := "ZeroDivisionError in convolve"
    body := "ZeroDivisionError: division by zero"
    expected_failure_signals := [{ exception_type := some "ZeroDivisionError" }] }

/-- A candidate with no setup commands. -/
def sampleCand : ReproCandidate :=
  { candidate_id := "w1-candidate"
    worker_id := "w1"
    script := "import numpy\n1/0\n"
    setup_commands := []
    oracle_command := "python {repro_file}"
    claimed_failure_signature := "ZeroDivisionError" }

/-- An environment in which every shell call fails with the expected
signature on stderr. -/
def sampleEnv : ShellEnv := fun _ _ =>
  { returncode := 1, stdout := "Traceback"
    stderr := "ZeroDivisionError: division by zero" }

/-- A candidate whose single setup command will fail. -/
def failSetupCand : ReproCandidate :=
  { candidate_id := "w2-candidate"
    worker_id := "w2"
    script := "print(1)\n"
    setup_commands := ["false"]
    oracle_command := "python {repro_file}"
    claimed_failure_signature := "ZeroDivisionError" }

/-- An environment in which every shell call exits non-zero with no output. -/
def failEnv : ShellEnv := fun _ _ =>
  { returncode := 1, stdout := "", stderr := "" }

/-- The scored copy of a candidate that `choose_best_candidate` builds. -/
def scoredCandidate (spec : IssueSpec) (c : ReproCandidate) : ReproCandidate :=
  {c with score := some (score_candidate c spec)}

/-- Two passing candidates for the C2 witness: `candA` scores higher. -/
def candA : ReproCandidate :=
  { candidate_id := "a"
    worker_id := "w1"
    script := "import numpy\n1/0\n"
    setup_commands := []
    oracle_command := "python {repro_file}"
    claimed_failure_signature := "ZeroDivisionError"
    validation := some ⟨5, 5, "ZeroDivisionError", true⟩ }

/-- Second witness candidate: fewer matches, so a lower score. -/
def candB : ReproCandidate :=
  { candidate_id := "b"
    worker_id := "w2"
    script := "import numpy\n1/0\n"
    setup_commands := []
    oracle_command := "python {repro_file}"
    claimed_failure_signature := "ZeroDivisionError"
    validation := some ⟨5, 3, "ZeroDivisionError", true⟩ }

/-- A `[manager]` payload that sets `min_workers = 10`. -/
def bigMinPayload : String → Option TomlVal := fun key =>
  if key = "min_workers" then some (.int 10) else none

/-- 1 when a monotone boolean flag flips from `a` to `b`, else 0. -/
def boolDelta (a b : Bool) : Nat := if a then 0 else if b then 1 else 0

/-- Repository snapshot for the C5 witness. -/
def exRepo : RepoSnapshot := fun file =>
  if file = "module.py" then some ["x = 1", "raise ValueError"] else none

/-- A hypothesis with one valid and one invalid evidence row. -/
def exHyp : TriageHypothesis :=
  { hypothesis_id := "h1"
    mechanism := "raise valueerror in module"
    evidence := [⟨"module.py", 2, "raise ValueError"⟩, ⟨"missing.py", 1, ""⟩]
    confidence := 1/2
    disconfirming_checks := []
    worker_id := "w1" }

/-- `exHyp` restricted to its valid evidence row, as the filtering step of
`rank_hypotheses` produces it. -/
def exHypValid : TriageHypothesis :=
  { hypothesis_id := "h1"
    mechanism := "raise valueerror in module"
    evidence := [⟨"module.py", 2, "raise ValueError"⟩]
    confidence := 1/2
    disconfirming_checks := []
    worker_id := "w1" }

/-! ## C1: the validation gate -/

/-- The oracle loop counts at most one match per run. -/
theorem countOracleMatches_le (env : ShellEnv) (candidate : ReproCandidate)
    (spec : IssueSpec) (scriptPath : String) (pyExe : Option String) :
    ∀ (runs idx : Nat),
      countOracleMatches env candidate spec scriptPath pyExe idx runs ≤ runs := by
  intro runs
  induction runs with
  | zero => intro idx; simp [countOracleMatches]
  | succ r ih =>
      intro idx
      simp only [countOracleMatches]
      have h := ih (idx + 1)
      split <;> omega

/-- C1: for every candidate, issue spec and shell environment, with total
runs `N ≥ 1` and minimum matches `K`, `1 ≤ K ≤ N`, the returned
`ValidationResult` has `total_runs = N`, `matches ≤ N`, and `passed` holds
iff `matches ≥ K`. -/
theorem validate_candidate_gate (env : ShellEnv) (candidate : ReproCandidate)
    (spec : IssueSpec) (scriptPath : String) (pyExe : Option String)
    (runs min_matches : Nat) (hK1 : 1 ≤ min_matches) (hKN : min_matches ≤ runs) :
    (validate_candidate env candidate spec scriptPath runs min_matches pyExe).1.total_runs
        = runs
    ∧ (validate_candidate env candidate spec scriptPath runs min_matches pyExe).1.«matches»
        ≤ runs
    ∧ ((validate_candidate env candidate spec scriptPath runs min_matches pyExe).1.passed
          = true
        ↔ min_matches ≤
          (validate_candidate env candidate spec scriptPath runs min_matches pyExe).1.«matches») := by
  unfold validate_candidate
  cases hs : runSetupsFrom env scriptPath pyExe 0 candidate.setup_commands with
  | none =>
      refine ⟨rfl, Nat.zero_le _, ?_⟩
      simp only
      constructor
      · intro h; exact absurd h (by simp)
      · intro h; omega
  | some idx =>
      refine ⟨rfl, countOracleMatches_le env candidate spec scriptPath pyExe runs idx, ?_⟩
      have hreq : max 1 (min min_matches runs) = min_matches := by omega
      simp only [hreq, decide_eq_true_eq]

/-- Witness for C1 at `runs = 3`, `min_matches = 2`, on an environment whose
oracle output always carries the claimed signature. -/
theorem validate_candidate_gate_witness :
    1 ≤ 2 ∧ 2 ≤ 3
    ∧ ((validate_candidate sampleEnv sampleCand sampleSpec "/tmp/c.py" 3 2 none).1.total_runs
          = 3
      ∧ (validate_candidate sampleEnv sampleCand sampleSpec "/tmp/c.py" 3 2 none).1.«matches»
          ≤ 3
      ∧ ((validate_candidate sampleEnv sampleCand sampleSpec "/tmp/c.py" 3 2 none).1.passed
            = true
          ↔ 2 ≤
            (validate_candidate sampleEnv sampleCand sampleSpec "/tmp/c.py" 3 2 none).1.«matches»)) :=
  ⟨by decide, by decide,
    validate_candidate_gate sampleEnv sampleCand sampleSpec "/tmp/c.py" none 3 2
      (by decide) (by decide)⟩

/-! ## C3: setup failure short-circuits validation -/

/-- If every setup command before position `|pre|` succeeds and the one at
position `|pre|` exits non-zero, the setup loop reports failure. -/
theorem runSetupsFrom_fail (env : ShellEnv) (scriptPath : String)
    (pyExe : Option String) (cmd : String) (post : List String) :
    ∀ (pre : List String) (idx : Nat),
      (∀ j (hj : j < pre.length),
        (env (idx + j) (renderCommand (pre.get ⟨j, hj⟩) scriptPath pyExe)).returncode = 0) →
      (env (idx + pre.length) (renderCommand cmd scriptPath pyExe)).returncode ≠ 0 →
      runSetupsFrom env scriptPath pyExe idx (pre ++ cmd :: post) = none := by
  intro pre
  induction pre with
  | nil =>
      intro idx _ hfail
      simp only [List.nil_append, runSetupsFrom]
      rw [if_pos (by simpa using hfail)]
  | cons p ps ih =>
      intro idx hok hfail
      simp only [List.cons_append, runSetupsFrom]
      have h0 : (env (idx + 0) (renderCommand p scriptPath pyExe)).returncode = 0 := by
        exact hok 0 (by simp)
      rw [if_neg (by simpa using h0)]
      refine ih (idx + 1) ?_ ?_
      · intro j hj
        have := hok (j + 1) (by simpa using Nat.succ_lt_succ hj)
        simpa [Nat.add_assoc, Nat.add_comm 1 j] using this
      · have := hfail
        simpa [List.length_cons, Nat.add_assoc, Nat.add_comm 1 ps.length] using this

/-- C3: a candidate whose setup commands contain a failing one (all earlier
ones succeeding) is failed immediately: `matches = 0`, `passed = false`, and
the oracle command is executed zero times. -/
theorem validate_setup_failure (env : ShellEnv) (candidate : ReproCandidate)
    (spec : IssueSpec) (scriptPath : String) (pyExe : Option String)
    (runs min_matches : Nat) (pre : List String) (cmd : String) (post : List String)
    (hsplit : candidate.setup_commands = pre ++ cmd :: post)
    (hok : ∀ j (hj : j < pre.length),
      (env j (renderCommand (pre.get ⟨j, hj⟩) scriptPath pyExe)).returncode = 0)
    (hfail : (env pre.length (renderCommand cmd scriptPath pyExe)).returncode ≠ 0) :
    validate_candidate env candidate spec scriptPath runs min_matches pyExe
      = (⟨runs, 0, candidate.claimed_failure_signature, false⟩, 0) := by
  unfold validate_candidate
  rw [hsplit, runSetupsFrom_fail env scriptPath pyExe cmd post pre 0
    (by simpa using hok) (by simpa using hfail)]

/-- Witness for C3: the sole setup command `false` exits 1, so validation
returns `matches = 0`, `passed = false` with zero oracle invocations. -/
theorem validate_setup_failure_witness :
    validate_candidate failEnv failSetupCand sampleSpec "/tmp/c.py" 5 3 none
      = (⟨5, 0, "ZeroDivisionError", false⟩, 0) :=
  validate_setup_failure failEnv failSetupCand sampleSpec "/tmp/c.py" none 5 3
    [] "false" [] rfl (fun j hj => absurd hj (Nat.not_lt_zero j)) (by decide)

/-! ## C9: score monotonicity -/

/-- `Rat.floor` agrees with the (irreducible) `Int.floor`. -/
theorem ratFloor_eq_intFloor (q : ℚ) : Rat.floor q = ⌊q⌋ := by
  rw [Rat.floor_def', Rat.floor_def]

/-- Banker's rounding never moves below the floor. -/
theorem floor_le_bankersRound (q : ℚ) : Rat.floor q ≤ bankersRound q := by
  unfold bankersRound
  split_ifs <;> omega

/-- Banker's rounding never exceeds the floor plus one. -/
theorem bankersRound_le_floor_add_one (q : ℚ) : bankersRound q ≤ Rat.floor q + 1 := by
  unfold bankersRound
  split_ifs <;> omega

/-- Banker's rounding is monotone. -/
theorem bankersRound_mono {q r : ℚ} (h : q ≤ r) :
    bankersRound q ≤ bankersRound r := by
  have hmono : Rat.floor q ≤ Rat.floor r := by
    rw [ratFloor_eq_intFloor, ratFloor_eq_intFloor]
    exact Int.floor_mono h
  rcases lt_or_eq_of_le hmono with hf | hf
  · calc bankersRound q ≤ Rat.floor q + 1 := bankersRound_le_floor_add_one q
      _ ≤ Rat.floor r := by omega
      _ ≤ bankersRound r := floor_le_bankersRound r
  · unfold bankersRound
    rw [← hf]
    have hfq : ((Rat.floor q : ℤ) : ℚ) = ((Rat.floor r : ℤ) : ℚ) := by
      exact_mod_cast hf
    split_ifs <;> first | omega | linarith

/-- `round(·, 5)` is monotone. -/
theorem pyRound5_mono {q r : ℚ} (h : q ≤ r) : pyRound5 q ≤ pyRound5 r := by
  unfold pyRound5
  have h2 : (bankersRound (q * 100000) : ℚ) ≤ (bankersRound (r * 100000) : ℚ) := by
    exact_mod_cast bankersRound_mono (by linarith : q * 100000 ≤ r * 100000)
  gcongr

/-- C9: `score_candidate` is monotone-nondecreasing in determinism (more
matches over the same positive total never lowers the score, all else equal)
and in fidelity (a claimed signature containing an expected-signal term
never scores below any other claimed signature, all else equal). -/
theorem score_candidate_mono :
    (∀ (c : ReproCandidate) (spec : IssueSpec) (v₁ v₂ : ValidationResult),
      v₁.total_runs = v₂.total_runs → 0 < v₁.total_runs →
      v₁.«matches» ≤ v₂.«matches» →
      score_candidate {c with validation := some v₁} spec
        ≤ score_candidate {c with validation := some v₂} spec)
    ∧ (∀ (c : ReproCandidate) (spec : IssueSpec) (sig₁ sig₂ : String),
      (expectedTerms spec).any (fun term => strContains (strLower sig₁) term) = true →
      score_candidate {c with claimed_failure_signature := sig₂} spec
        ≤ score_candidate {c with claimed_failure_signature := sig₁} spec) := by
  constructor
  · intro c spec v₁ v₂ htot hpos hm
    simp only [score_candidate]
    apply pyRound5_mono
    have hdet : (v₁.«matches» : ℚ) / (max (v₁.total_runs : ℚ) 1)
        ≤ (v₂.«matches» : ℚ) / (max (v₂.total_runs : ℚ) 1) := by
      rw [← htot]
      have hm' : (v₁.«matches» : ℚ) ≤ (v₂.«matches» : ℚ) := by exact_mod_cast hm
      gcongr
    gcongr
  · intro c spec sig₁ sig₂ hfid
    simp only [score_candidate]
    cases hv : c.validation with
    | none => exact le_rfl
    | some v =>
        apply pyRound5_mono
        rw [if_pos hfid]
        have hle : (if (expectedTerms spec).any
            (fun term => strContains (strLower sig₂) term) = true
            then (1 : ℚ) else 0) ≤ 1 := by
          split_ifs <;> norm_num
        gcongr

/-- Witness for C9: concrete candidates differing only in matches
(2 vs 4 out of 5) and only in claimed signature (with and without the
expected term). -/
theorem score_candidate_mono_witness :
    score_candidate
        {sampleCand with validation := some ⟨5, 2, "ZeroDivisionError", false⟩}
        sampleSpec
      ≤ score_candidate
          {sampleCand with validation := some ⟨5, 4, "ZeroDivisionError", true⟩}
          sampleSpec
    ∧ score_candidate {sampleCand with claimed_failure_signature := "unrelated"}
        sampleSpec
      ≤ score_candidate
          {sampleCand with
            claimed_failure_signature := "ZeroDivisionError: division by zero"}
          sampleSpec :=
  ⟨score_candidate_mono.1 sampleCand sampleSpec
      ⟨5, 2, "ZeroDivisionError", false⟩ ⟨5, 4, "ZeroDivisionError", true⟩
      rfl (by decide) (by decide),
    score_candidate_mono.2 sampleCand sampleSpec
      "ZeroDivisionError: division by zero" "unrelated" (by decide)⟩

/-! ## C2: selection of the best candidate -/

/-- `candLt` decides the lexicographic order of selection keys. -/
theorem candLt_iff (a b : ℚ ×ₗ (ℕ ×ₗ String)) : candLt a b = true ↔ a < b := by
  rcases a with ⟨a1, a2, a3⟩
  rcases b with ⟨b1, b2, b3⟩
  show candLt (toLex (a1, toLex (a2, a3))) (toLex (b1, toLex (b2, b3))) = true
    ↔ toLex (a1, toLex (a2, a3)) < toLex (b1, toLex (b2, b3))
  rw [Prod.Lex.lt_iff, Prod.Lex.lt_iff]
  simp only [candLt, Bool.or_eq_true, Bool.and_eq_true, decide_eq_true_eq]
  tauto

/-- The left fold with strict-less replacement stays inside the input. -/
theorem foldlMin_mem {α : Type} (ltB : α → α → Bool) :
    ∀ (vs : List α) (v : α),
      vs.foldl (fun best c => if ltB c best then c else best) v ∈ v :: vs := by
  intro vs
  induction vs with
  | nil => intro v; simp
  | cons c cs ih =>
      intro v
      simp only [List.foldl_cons]
      rcases List.mem_cons.mp (ih (if ltB c v then c else v)) with h | h
      · rw [h]
        split_ifs <;> simp
      · simp [h]

/-- The left fold with strict-less replacement attains the minimal key,
when the boolean comparison decides the strict key order. -/
theorem foldlMin_min {α β : Type} [LinearOrder β] (key : α → β)
    (ltB : α → α → Bool) (hlt : ∀ x y, ltB x y = true ↔ key x < key y) :
    ∀ (vs : List α) (v d : α), d ∈ v :: vs →
      key (vs.foldl (fun best c => if ltB c best then c else best) v) ≤ key d := by
  intro vs
  induction vs with
  | nil =>
      intro v d hd
      simp only [List.mem_singleton] at hd
      simp [hd]
  | cons c cs ih =>
      intro v d hd
      simp only [List.foldl_cons]
      by_cases hcv : ltB c v = true
      · rw [if_pos hcv]
        rcases List.mem_cons.mp hd with rfl | hd'
        · exact le_trans (ih c c (List.mem_cons_self _ _))
            (le_of_lt ((hlt _ _).mp hcv))
        rcases List.mem_cons.mp hd' with rfl | hd''
        · exact ih d d (List.mem_cons_self _ _)
        · exact ih c d (List.mem_cons_of_mem _ hd'')
      · rw [if_neg hcv]
        rcases List.mem_cons.mp hd with rfl | hd'
        · exact ih d d (List.mem_cons_self _ _)
        rcases List.mem_cons.mp hd' with rfl | hd''
        · exact le_trans (ih v v (List.mem_cons_self _ _))
            (le_of_not_lt fun h => hcv ((hlt _ _).mpr h))
        · exact ih v d (List.mem_cons_of_mem _ hd'')

/-- Setting the score leaves the pass flag unchanged. -/
theorem candPassed_scored (spec : IssueSpec) (c : ReproCandidate) :
    candPassed (scoredCandidate spec c) = candPassed c := by
  cases c; rfl

/-- C2 (amended): `choose_best_candidate` returns `None` iff no candidate
passed validation; a returned candidate passed validation and minimizes the
key `(-score, line count, candidate_id)` among all scored passing
candidates; and the no-reproducer decision is `needs-human` with a rationale
that starts with `"no deterministic reproducer met the acceptance gate"`
(followed by the configured gate). -/
theorem choose_best_candidate_spec :
    (∀ (cands : List ReproCandidate) (spec : IssueSpec),
      choose_best_candidate cands spec = none ↔ ∀ c ∈ cands, candPassed c = false)
    ∧ (∀ (cands : List ReproCandidate) (spec : IssueSpec) (c : ReproCandidate),
      choose_best_candidate cands spec = some c →
        candPassed c = true
        ∧ c ∈ cands.map (scoredCandidate spec)
        ∧ ∀ d ∈ cands.map (scoredCandidate spec), candPassed d = true →
            candKey c ≤ candKey d)
    ∧ (∀ (k n : Nat) (diags : List String),
      (noReproDecision k n diags).status = "needs-human"
      ∧ ("no deterministic reproducer met the acceptance gate").data
          <+: (noReproDecision k n diags).rationale.data) := by
  have hfilter : ∀ (cands : List ReproCandidate) (spec : IssueSpec),
      (cands.map fun c => {c with score := some (score_candidate c spec)})
        = cands.map (scoredCandidate spec) := by
    intro cands spec; rfl
  have hmatch : ∀ (l : List ReproCandidate),
      (match l with
        | [] => none
        | v :: vs => some (vs.foldl
            (fun best c => if candLt (candKey c) (candKey best) then c else best) v))
        = (none : Option ReproCandidate) ↔ l = [] := by
    intro l; cases l <;> simp
  refine ⟨?_, ?_, ?_⟩
  · intro cands spec
    unfold choose_best_candidate
    rw [hfilter, hmatch]
    rw [List.filter_eq_nil_iff]
    constructor
    · intro h c hc
      have := h (scoredCandidate spec c) (List.mem_map_of_mem _ hc)
      rw [candPassed_scored] at this
      simpa using this
    · intro h c hc
      obtain ⟨c0, hc0, rfl⟩ := List.mem_map.mp hc
      rw [candPassed_scored]
      simp [h c0 hc0]
  · intro cands spec c hsome
    simp only [choose_best_candidate] at hsome
    rw [hfilter] at hsome
    cases hv : (cands.map (scoredCandidate spec)).filter candPassed with
    | nil => rw [hv] at hsome; exact absurd hsome (by simp)
    | cons v vs =>
        rw [hv] at hsome
        simp only [Option.some.injEq] at hsome
        subst hsome
        have hmem : vs.foldl
            (fun best c => if candLt (candKey c) (candKey best) then c else best) v
              ∈ v :: vs :=
          foldlMin_mem (fun c best => candLt (candKey c) (candKey best)) vs v
        have hmem' : vs.foldl
            (fun best c => if candLt (candKey c) (candKey best) then c else best) v
              ∈ (cands.map (scoredCandidate spec)).filter candPassed := by
          rw [hv]; exact hmem
        obtain ⟨hin, hpass⟩ := List.mem_filter.mp hmem'
        refine ⟨hpass, hin, ?_⟩
        intro d hd hdp
        have hdf : d ∈ (cands.map (scoredCandidate spec)).filter candPassed :=
          List.mem_filter.mpr ⟨hd, hdp⟩
        rw [hv] at hdf
        exact foldlMin_min candKey (fun c best => candLt (candKey c) (candKey best))
          (fun x y => candLt_iff (candKey x) (candKey y)) vs v d hdf
  · intro k n diags
    refine ⟨rfl, ?_⟩
    have h1 : ("no deterministic reproducer met the acceptance gate").data
        <+: ("no deterministic reproducer met the acceptance gate ").data := by
      decide
    refine h1.trans ?_
    show ("no deterministic reproducer met the acceptance gate ").data
      <+: (noReproRationale k n).data
    unfold noReproRationale
    simp only [String.data_append]
    simp only [List.append_assoc]
    exact List.prefix_append _ _

/-- Counterexample to C2 as stated: with the default gate `K=1, N=5` (and
any other configuration) the needs-human rationale is not the bare string
the claim quotes — the code appends the configured gate. -/
theorem noRepro_rationale_counterexample :
    (noReproDecision 1 5 []).rationale
      ≠ "no deterministic reproducer met the acceptance gate" := by
  decide

set_option maxRecDepth 4096 in
/-- Witness for C2 (amended) on a concrete two-candidate list. -/
theorem choose_best_candidate_spec_witness :
    candPassed ((choose_best_candidate [candA, candB] sampleSpec).getD sampleCand)
        = true
    ∧ (choose_best_candidate [candA, candB] sampleSpec).getD sampleCand
        ∈ [candA, candB].map (scoredCandidate sampleSpec)
    ∧ ∀ d ∈ [candA, candB].map (scoredCandidate sampleSpec),
        candPassed d = true →
          candKey ((choose_best_candidate [candA, candB] sampleSpec).getD sampleCand)
            ≤ candKey d :=
  choose_best_candidate_spec.2.1 [candA, candB] sampleSpec
    ((choose_best_candidate [candA, candB] sampleSpec).getD sampleCand)
    (by with_unfolding_all decide)

/-! ## C6: the wave size sequence -/

/-- In a strictly sorted list, an element below all others is the head. -/
theorem sorted_head_of_min {l : List ℕ} (hs : l.Sorted (· < ·)) {a : ℕ}
    (ha : a ∈ l) (hmin : ∀ x ∈ l, a ≤ x) : l.head? = some a := by
  cases l with
  | nil => cases ha
  | cons x xs =>
      simp only [List.head?_cons, Option.some.injEq]
      rcases List.mem_cons.mp ha with rfl | hin
      · rfl
      · have hxa : x < a := (List.sorted_cons.mp hs).1 a hin
        have hax : a ≤ x := hmin x (List.mem_cons_self _ _)
        omega

/-- In a strictly sorted list, an element above all others is the last. -/
theorem sorted_getLast_of_max {l : List ℕ} (hs : l.Sorted (· < ·)) {a : ℕ}
    (ha : a ∈ l) (hmax : ∀ x ∈ l, x ≤ a) : l.getLast? = some a := by
  induction l with
  | nil => cases ha
  | cons x xs ih =>
      cases xs with
      | nil =>
          simp only [List.mem_singleton] at ha
          simp [ha]
      | cons y ys =>
          rw [List.getLast?_cons_cons]
          have hs' := (List.sorted_cons.mp hs).2
          apply ih hs'
          · rcases List.mem_cons.mp ha with rfl | hin
            · have hay : a < y := (List.sorted_cons.mp hs).1 y (List.mem_cons_self _ _)
              have hya : y ≤ a := hmax y (List.mem_cons_of_mem _ (List.mem_cons_self _ _))
              omega
            · exact hin
          · intro z hz
            exact hmax z (List.mem_cons_of_mem _ hz)

/-- C6: for `min_workers ≤ max_workers` the wave size sequence is strictly
increasing, starts at `min_workers`, ends at `max_workers`, and contains
exactly `min_workers`, `max_workers`, and whichever of 4 and 6 lie strictly
between `min_workers` and at most `max_workers` — i.e. it equals
`sorted(unique(\x7bmin,4,6\x7d ∩ [min,max]) ∪ \x7bmax\x7d)`. -/
theorem worker_count_sequence_spec (min_workers max_workers : Nat)
    (h : min_workers ≤ max_workers) :
    List.Sorted (· < ·) (worker_count_sequence min_workers max_workers)
    ∧ (worker_count_sequence min_workers max_workers).head? = some min_workers
    ∧ (worker_count_sequence min_workers max_workers).getLast? = some max_workers
    ∧ ∀ x, x ∈ worker_count_sequence min_workers max_workers ↔
        (x = min_workers ∨ x = max_workers
          ∨ ((x = 4 ∨ x = 6) ∧ min_workers < x ∧ x ≤ max_workers)) := by
  have hmem : ∀ x, x ∈ worker_count_sequence min_workers max_workers ↔
      (x = min_workers ∨ x = max_workers
        ∨ ((x = 4 ∨ x = 6) ∧ min_workers < x ∧ x ≤ max_workers)) := by
    intro x
    simp only [worker_count_sequence, List.mem_insertionSort, List.mem_dedup]
    by_cases h4 : min_workers < 4 ∧ 4 ≤ max_workers
      <;> by_cases h6 : min_workers < 6 ∧ 6 ≤ max_workers
      <;> simp only [h4, h6, and_self, if_true, if_false]
      <;> split_ifs with hm
      <;> simp only [List.mem_append, List.mem_singleton, List.mem_cons,
        List.not_mem_nil, or_false, false_or] at hm ⊢
      <;> omega
  have hsortedle : (worker_count_sequence min_workers max_workers).Sorted (· ≤ ·) := by
    simp only [worker_count_sequence]
    exact List.sorted_insertionSort _ _
  have hnodup : (worker_count_sequence min_workers max_workers).Nodup := by
    simp only [worker_count_sequence]
    exact ((List.perm_insertionSort _ _).nodup_iff).mpr (List.nodup_dedup _)
  have hsorted : (worker_count_sequence min_workers max_workers).Sorted (· < ·) :=
    hsortedle.lt_of_le hnodup
  refine ⟨hsorted, ?_, ?_, hmem⟩
  · apply sorted_head_of_min hsorted ((hmem min_workers).mpr (Or.inl rfl))
    intro x hx
    have := (hmem x).mp hx
    omega
  · apply sorted_getLast_of_max hsorted ((hmem max_workers).mpr (Or.inr (Or.inl rfl)))
    intro x hx
    have := (hmem x).mp hx
    omega

/-- Witness for C6 at `min_workers = 3`, `max_workers = 6` (sequence
`[3, 4, 6]`). -/
theorem worker_count_sequence_spec_witness :
    3 ≤ 6
    ∧ (List.Sorted (· < ·) (worker_count_sequence 3 6)
      ∧ (worker_count_sequence 3 6).head? = some 3
      ∧ (worker_count_sequence 3 6).getLast? = some 6
      ∧ ∀ x, x ∈ worker_count_sequence 3 6 ↔
          (x = 3 ∨ x = 6 ∨ ((x = 4 ∨ x = 6) ∧ 3 < x ∧ x ≤ 6))) :=
  ⟨by decide, worker_count_sequence_spec 3 6 (by decide)⟩

/-! ## C7: configuration clamping -/

/-- Counterexample to C7 as stated: with `min_workers = 10` in the payload,
`load_manager_defaults` keeps `min_workers = 10` (there is no upper clamp),
so `min_workers ∈ [2,6]` and `max_workers ≥ min_workers` both fail. -/
theorem load_manager_defaults_counterexample :
    (load_manager_defaults_nums bigMinPayload).min_workers = 10
    ∧ (load_manager_defaults_nums bigMinPayload).max_workers = 6
    ∧ ¬((load_manager_defaults_nums bigMinPayload).min_workers ≤ 6
        ∧ (load_manager_defaults_nums bigMinPayload).min_workers
          ≤ (load_manager_defaults_nums bigMinPayload).max_workers) := by
  decide

/-- C7 (amended): for every payload the numeric fields satisfy
`min_workers ≥ 2` (no upper clamp), `max_workers ∈ [2,6]`,
`timeout_sec ≥ 60`, `poll_interval_sec ≥ 1`, `repro_validation_runs ≥ 1`,
and `repro_min_matches ∈ [1, repro_validation_runs]`. -/
theorem load_manager_defaults_ranges (payload : String → Option TomlVal) :
    2 ≤ (load_manager_defaults_nums payload).min_workers
    ∧ 2 ≤ (load_manager_defaults_nums payload).max_workers
    ∧ (load_manager_defaults_nums payload).max_workers ≤ 6
    ∧ 60 ≤ (load_manager_defaults_nums payload).timeout_sec
    ∧ 1 ≤ (load_manager_defaults_nums payload).poll_interval_sec
    ∧ 1 ≤ (load_manager_defaults_nums payload).repro_validation_runs
    ∧ 1 ≤ (load_manager_defaults_nums payload).repro_min_matches
    ∧ (load_manager_defaults_nums payload).repro_min_matches
      ≤ (load_manager_defaults_nums payload).repro_validation_runs := by
  simp only [load_manager_defaults_nums]
  omega

/-! ## C8: the artifact contract -/

/-- C8 evaluation: on a fresh run directory, `initialize_contract` creates
the `repro/candidates`, `triage`, `prompts` and `scripts` directories (with
their ancestors) and writes every skeleton document — but it creates no
`telemetry/` directory, although the §6.2 contract lists one and `Manager`
dereferences `paths.telemetry_dir` (which `ArtifactPaths` does not even
define). -/
theorem initialize_contract_no_telemetry :
    dirCreated (initialize_contract (artifactPaths "runs" "run-1"))
        ["runs", "run-1", "repro", "candidates"] = true
    ∧ dirCreated (initialize_contract (artifactPaths "runs" "run-1"))
        ["runs", "run-1", "repro"] = true
    ∧ dirCreated (initialize_contract (artifactPaths "runs" "run-1"))
        ["runs", "run-1", "triage"] = true
    ∧ dirCreated (initialize_contract (artifactPaths "runs" "run-1"))
        ["runs", "run-1", "prompts"] = true
    ∧ dirCreated (initialize_contract (artifactPaths "runs" "run-1"))
        ["runs", "run-1", "scripts"] = true
    ∧ fileWritten (initialize_contract (artifactPaths "runs" "run-1"))
        ["runs", "run-1", "issue.json"] = true
    ∧ fileWritten (initialize_contract (artifactPaths "runs" "run-1"))
        ["runs", "run-1", "sessions.json"] = true
    ∧ fileWritten (initialize_contract (artifactPaths "runs" "run-1"))
        ["runs", "run-1", "triage", "hypotheses.json"] = true
    ∧ fileWritten (initialize_contract (artifactPaths "runs" "run-1"))
        ["runs", "run-1", "decision.json"] = true
    ∧ fileWritten (initialize_contract (artifactPaths "runs" "run-1"))
        ["runs", "run-1", "repro", "minimal_repro.txt"] = true
    ∧ fileWritten (initialize_contract (artifactPaths "runs" "run-1"))
        ["runs", "run-1", "final.md"] = true
    ∧ dirCreated (initialize_contract (artifactPaths "runs" "run-1"))
        ["runs", "run-1", "telemetry"] = false := by
  decide

/-! ## C4: supervision escalation -/

/-- `boolDelta` composes along monotone flag updates. -/
theorem boolDelta_trans :
    ∀ a b c : Bool, (a = true → b = true) → (b = true → c = true) →
      boolDelta a b + boolDelta b c = boolDelta a c := by
  decide

/-- `restartsAfterNudge` splits over concatenation. -/
theorem restartsAfterNudge_append (l₂ : List TmuxAction) :
    ∀ (l₁ : List TmuxAction) (seen : Bool),
      restartsAfterNudge (l₁ ++ l₂) seen
        = (restartsAfterNudge l₁ seen
            && restartsAfterNudge l₂ (seen || l₁.any isNudge)) := by
  intro l₁
  induction l₁ with
  | nil => intro seen; simp [restartsAfterNudge]
  | cons a l₁ ih =>
      intro seen
      simp only [List.cons_append, restartsAfterNudge]
      by_cases hra : (isRestart a && !seen) = true
      · simp [hra]
      · simp only [hra, if_false, Bool.false_eq_true, List.append_eq]
        rw [ih (seen || isNudge a)]
        simp [List.any_cons, Bool.or_assoc]

/-- Per-tick accounting: nudge and restart actions are counted exactly by
the corresponding flag flips, flags are monotone, no restart is emitted
before the nudge flag is set, and the updated nudge flag records whether a
nudge was ever sent. -/
theorem tick_step (t : ℚ) (w : String) (env : TickEnv) (s : WorkerWatchState) :
    ((tick t w env s).2.countP isNudge
        = boolDelta s.stalled_once (tick t w env s).1.stalled_once)
    ∧ ((tick t w env s).2.countP isRestart
        = boolDelta s.restarted_once (tick t w env s).1.restarted_once)
    ∧ (s.stalled_once = true → (tick t w env s).1.stalled_once = true)
    ∧ (s.restarted_once = true → (tick t w env s).1.restarted_once = true)
    ∧ restartsAfterNudge (tick t w env s).2 s.stalled_once = true
    ∧ ((tick t w env s).1.stalled_once
        = (s.stalled_once || (tick t w env s).2.any isNudge)) := by
  simp only [tick]
  split_ifs <;>
    simp_all [boolDelta, restartsAfterNudge, isNudge, isRestart,
      List.countP_cons, List.countP_nil]

/-- Trace accounting for a run of ticks from an arbitrary start state. -/
theorem runTicks_inv (t : ℚ) (w : String) :
    ∀ (envs : List TickEnv) (s : WorkerWatchState),
      ((runTicks t w s envs).2.flatten.countP isNudge
          = boolDelta s.stalled_once (runTicks t w s envs).1.stalled_once)
      ∧ ((runTicks t w s envs).2.flatten.countP isRestart
          = boolDelta s.restarted_once (runTicks t w s envs).1.restarted_once)
      ∧ (s.stalled_once = true → (runTicks t w s envs).1.stalled_once = true)
      ∧ (s.restarted_once = true → (runTicks t w s envs).1.restarted_once = true)
      ∧ restartsAfterNudge (runTicks t w s envs).2.flatten s.stalled_once = true := by
  intro envs
  induction envs with
  | nil =>
      intro s
      refine ⟨?_, ?_, fun h => h, fun h => h, ?_⟩ <;>
        cases hs : s.stalled_once <;> cases hr : s.restarted_once <;>
          simp [runTicks, boolDelta, restartsAfterNudge, hs, hr]
  | cons env rest ih =>
      intro s
      obtain ⟨hn1, hr1, hm1, hm1r, hs1, hflag⟩ := tick_step t w env s
      obtain ⟨hn2, hr2, hm2, hm2r, hs2⟩ := ih (tick t w env s).1
      simp only [runTicks, List.flatten_cons, List.countP_append]
      refine ⟨?_, ?_, ?_, ?_, ?_⟩
      · rw [hn1, hn2]
        exact boolDelta_trans _ _ _ hm1 hm2
      · rw [hr1, hr2]
        exact boolDelta_trans _ _ _ hm1r hm2r
      · exact fun h => hm2 (hm1 h)
      · exact fun h => hm2r (hm1r h)
      · rw [restartsAfterNudge_append, hs1, ← hflag, hs2]
        rfl

/-- C4: from a fresh watch, any tick sequence sends the stall nudge at most
once and restarts the session at most once, never restarts before a nudge
was sent; moreover (per tick, any state) a restart is emitted only when the
nudge flag is already set and the restart flag is not, the watch becomes
failed only when both flags were already set, and a failed watch is inert:
its tick returns the state unchanged with no actions. -/
theorem supervision_escalation (t : ℚ) (w session script : String)
    (envs : List TickEnv) :
    ((runTicks t w (initialWatch session script) envs).2.flatten.countP isNudge ≤ 1)
    ∧ ((runTicks t w (initialWatch session script) envs).2.flatten.countP isRestart ≤ 1)
    ∧ restartsAfterNudge
        (runTicks t w (initialWatch session script) envs).2.flatten false = true
    ∧ (∀ (env : TickEnv) (s : WorkerWatchState),
        (tick t w env s).2.any isRestart = false
        ∨ (s.stalled_once = true ∧ s.restarted_once = false))
    ∧ (∀ (env : TickEnv) (s : WorkerWatchState),
        (tick t w env s).1.failed = false ∨ s.failed = true
        ∨ (s.stalled_once = true ∧ s.restarted_once = true))
    ∧ (∀ (env : TickEnv) (s : WorkerWatchState),
        tick t w env {s with failed := true} = ({s with failed := true}, [])) := by
  obtain ⟨hn, hr, _, _, hs⟩ := runTicks_inv t w envs (initialWatch session script)
  refine ⟨?_, ?_, ?_, ?_, ?_, ?_⟩
  · rw [hn]
    unfold boolDelta
    split_ifs <;> omega
  · rw [hr]
    unfold boolDelta
    split_ifs <;> omega
  · exact hs
  · intro env s
    simp only [tick]
    split_ifs <;> simp_all [isRestart, isNudge]
  · intro env s
    simp only [tick]
    split_ifs <;> simp_all
  · intro env s
    simp [tick]

/-! ## C5: ranked hypotheses carry only valid evidence -/

/-- C5: every hypothesis returned by `rank_hypotheses` has a non-empty
mechanism, a non-empty evidence list, and every evidence row in it is valid
against the repository snapshot (file present, 1-indexed line in range, and
a non-empty snippet occurring literally in that line); hypotheses with no
valid evidence or an empty mechanism are excluded, and out-of-range evidence
rows are discarded. -/
theorem rank_hypotheses_evidence_valid (repo : RepoSnapshot)
    (hypotheses : List TriageHypothesis) (repro_text : String) :
    ∀ h ∈ rank_hypotheses repo hypotheses repro_text,
      h.mechanism ≠ "" ∧ h.evidence ≠ []
      ∧ ∀ ev ∈ h.evidence, evidenceValid repo ev = true := by
  intro h hmem
  simp only [rank_hypotheses, List.mem_insertionSort] at hmem
  obtain ⟨g, hg, rfl⟩ := List.mem_map.mp hmem
  obtain ⟨orig, _, hv⟩ := List.mem_filterMap.mp hg
  simp only [viableHypothesis] at hv
  split_ifs at hv with h1 h2 h3
  simp only [Option.some.injEq] at hv
  subst hv
  exact ⟨h1, h3, fun ev hev => (List.mem_filter.mp hev).2⟩

/-- The scored hypothesis `rank_hypotheses exRepo [exHyp] ""` returns. -/
theorem exHyp_ranked_mem :
    scoreHypothesis [exHypValid] "" exHypValid ∈ rank_hypotheses exRepo [exHyp] "" := by
  have hv : viableHypothesis exRepo exHyp = some exHypValid := by
    with_unfolding_all decide
  simp only [rank_hypotheses, List.filterMap_cons, hv, List.filterMap_nil,
    List.map_cons, List.map_nil]
  simp [List.insertionSort, List.orderedInsert]

/-- Witness for C5: the single ranked hypothesis keeps only the valid
evidence row. -/
theorem rank_hypotheses_evidence_valid_witness :
    (scoreHypothesis [exHypValid] "" exHypValid).mechanism ≠ ""
    ∧ (scoreHypothesis [exHypValid] "" exHypValid).evidence ≠ []
    ∧ ∀ ev ∈ (scoreHypothesis [exHypValid] "" exHypValid).evidence,
        evidenceValid exRepo ev = true :=
  rank_hypotheses_evidence_valid exRepo [exHyp] ""
    (scoreHypothesis [exHypValid] "" exHypValid) exHyp_ranked_mem

/-! ## C10: ddmin is total -/

/-- Every accepted trial is strictly shorter than the current list (the
termination argument for the reduction branch of `_ddmin`). -/
theorem findReduction_length {oracle : List String → Bool}
    {current trial : List String} {n : Nat}
    (hc : current.length / n ≠ 0)
    (h : findReduction oracle current n (current.length / n) = some trial) :
    trial.length < current.length := by
  obtain ⟨i, hi, hf⟩ := List.exists_of_findSome?_eq_some h
  by_cases hcond : ddminTrial current n (current.length / n) i ≠ []
      ∧ oracle (ddminTrial current n (current.length / n) i) = true
  · rw [if_pos hcond] at hf
    obtain rfl : ddminTrial current n (current.length / n) i = trial :=
      Option.some.inj hf
    have hn : n ≠ 0 := by
      intro h0; subst h0; simp [Nat.div_zero] at hc
    have hin : i + 1 ≤ n := List.mem_range.mp hi
    set chunk := current.length / n with hchunk
    have hcpos : 1 ≤ chunk := Nat.one_le_iff_ne_zero.mpr hc
    have hmul : chunk * n ≤ current.length := by
      rw [hchunk]; exact Nat.div_mul_le_self current.length n
    have hstep : i * chunk + chunk ≤ n * chunk := by
      have h1 : (i + 1) * chunk ≤ n * chunk := Nat.mul_le_mul_right chunk hin
      calc i * chunk + chunk = (i + 1) * chunk := by ring
        _ ≤ n * chunk := h1
    have hfit : i * chunk + chunk ≤ current.length := by
      calc i * chunk + chunk ≤ n * chunk := hstep
        _ = chunk * n := Nat.mul_comm n chunk
        _ ≤ current.length := hmul
    simp only [ddminTrial, List.length_append, List.length_take, List.length_drop]
    by_cases hlast : i = n - 1
    · rw [if_pos hlast]
      omega
    · rw [if_neg hlast]
      have hsucc : (i + 1) * chunk = i * chunk + chunk := by ring
      omega
  · rw [if_neg hcond] at hf
    simp at hf

/-- Every trial list is a sublist of the current list. -/
theorem ddminTrial_sublist (current : List String) (n i : Nat)
    (hc : current.length / n ≠ 0) (hi : i < n) :
    List.Sublist (ddminTrial current n (current.length / n) i) current := by
  unfold ddminTrial
  have hn : n ≠ 0 := by
    intro h0; subst h0; simp [Nat.div_zero] at hc
  set chunk := current.length / n with hchunk
  set start := i * chunk with hstart
  set stop := if i = n - 1 then current.length else (i + 1) * chunk with hstop
  have hmul : chunk * n ≤ current.length := by
    rw [hchunk]; exact Nat.div_mul_le_self current.length n
  have hfit : start + chunk ≤ current.length := by
    have h1 : (i + 1) * chunk ≤ n * chunk := Nat.mul_le_mul_right chunk hi
    have h2 : start + chunk = (i + 1) * chunk := by rw [hstart]; ring
    calc start + chunk = (i + 1) * chunk := h2
      _ ≤ n * chunk := h1
      _ = chunk * n := Nat.mul_comm n chunk
      _ ≤ current.length := hmul
  have hse : start ≤ stop := by
    rw [hstop]
    split_ifs
    · exact le_trans (Nat.le_add_right _ _) hfit
    · rw [hstart]
      have : i * chunk ≤ (i + 1) * chunk := Nat.mul_le_mul_right chunk (by omega)
      omega
  have h1 : current.drop stop = (current.drop start).drop (stop - start) := by
    rw [List.drop_drop]
    congr 1
    omega
  have h2 : List.Sublist (current.take start ++ current.drop stop)
      (current.take start ++ current.drop start) := by
    rw [h1]
    exact ((current.drop start).drop_sublist (stop - start)).append_left _
  rwa [List.take_append_drop] at h2

/-- An accepted reduction is a sublist of the current list. -/
theorem findReduction_sublist {oracle : List String → Bool}
    {current trial : List String} {n : Nat}
    (hc : current.length / n ≠ 0)
    (h : findReduction oracle current n (current.length / n) = some trial) :
    List.Sublist trial current := by
  obtain ⟨i, hi, hf⟩ := List.exists_of_findSome?_eq_some h
  by_cases hcond : ddminTrial current n (current.length / n) i ≠ []
      ∧ oracle (ddminTrial current n (current.length / n) i) = true
  · rw [if_pos hcond] at hf
    obtain rfl : ddminTrial current n (current.length / n) i = trial :=
      Option.some.inj hf
    exact ddminTrial_sublist current n i hc (List.mem_range.mp hi)
  · rw [if_neg hcond] at hf
    simp at hf

/-- The ddmin loop only removes lines. -/
theorem ddminLoop_sublist (oracle : List String → Bool) :
    ∀ (current : List String) (n : Nat), List.Sublist (ddminLoop oracle current n) current := by
  intro current n
  induction current, n using ddminLoop.induct oracle with
  | case1 current n h2 =>
      rw [ddminLoop]
      simp [h2]
  | case2 current n h2 hc =>
      rw [ddminLoop]
      simp [h2, hc]
  | case3 current n h2 hc trial hr ih =>
      rw [ddminLoop]
      simp only [dif_neg h2, dif_neg hc]
      split
      · rename_i trial' heq
        rw [hr] at heq
        obtain rfl := Option.some.inj heq
        exact ih.trans (findReduction_sublist hc hr)
      · rename_i heq
        rw [hr] at heq
        exact absurd heq (by simp)
  | case4 current n h2 hc hr hn =>
      rw [ddminLoop]
      simp only [dif_neg h2, dif_neg hc]
      split
      · rename_i trial' heq
        rw [hr] at heq
        exact absurd heq (by simp)
      · rw [dif_pos hn]
  | case5 current n h2 hc hr hn ih =>
      rw [ddminLoop]
      simp only [dif_neg h2, dif_neg hc]
      split
      · rename_i trial' heq
        rw [hr] at heq
        exact absurd heq (by simp)
      · rw [dif_neg hn]
        exact ih

/-- C10: `_ddmin` is a total function (its loop is well-founded: each
iteration either strictly shortens the current list or strictly increases
`n`, which is bounded by the list length), and its result only removes
lines: it is a sublist of the input, in particular no longer than it. -/
theorem ddmin_total_sublist (oracle : List String → Bool) (lines : List String) :
    List.Sublist (_ddmin oracle lines) lines
    ∧ (_ddmin oracle lines).length ≤ lines.length := by
  have h : List.Sublist (_ddmin oracle lines) lines := by
    unfold _ddmin
    split_ifs
    · exact List.Sublist.refl _
    · exact ddminLoop_sublist oracle lines 2
  exact ⟨h, h.length_le⟩

end MM
